import Mathlib

/-!
Shallow embedding of the boleto.ts library (a TypeScript parser/renderer for
Brazilian bank payment slips) and proofs of its specification claims.

Strings are embedded as `List Char`.  JavaScript operations that can produce
`undefined`/`NaN` (array indexing out of bounds, `parseInt` of a non-numeric
string, out-of-range table lookups) are embedded as `Option`-returning
functions; a `some` result means the JS computation produced a proper value.
-/

/-- The numeric value of a decimal digit character; models JS
`parseInt(c, 10)` on a single decimal-digit character. -/
def digitVal (c : Char) : Nat := c.toNat - 48

/-! ## helpers.ts : modulo11 -/

/-- The summation loop of `modulo11` in `helpers.ts`: iterates over the
(already reversed) digit list carrying the index `i` and the accumulator,
adding `((i % 8) + 2) * parseInt(digits[i], 10)` at each step. -/
def modulo11SumLoop : List Char → Nat → Nat → Nat
  | [], _, acc => acc
  | c :: rest, i, acc => modulo11SumLoop rest (i + 1) (acc + (i % 8 + 2) * digitVal c)

/-- The `modulo11` function of `helpers.ts`: reverse the digits, sum the
weighted digits with weights `(i % 8) + 2` over the reversed positions, and
return `(11 - (sum % 11)) % 10 || 1` (the JS `|| 1` turns a 0 into 1). -/
def modulo11 (number : List Char) : Nat :=
  let digits := number.reverse
  let sum := modulo11SumLoop digits 0 0
  let r := (11 - sum % 11) % 10
  if r = 0 then 1 else r

/-- The modulo-11 checksum as the specification words it: reverse the digit
sequence, give reversed position `i` the weight `(i % 8) + 2`, sum
`weight * digit` over all positions, compute `(11 - (sum % 11)) % 10`, and
return 1 instead whenever that value is 0. -/
def modulo11Ref (d : List Char) : Nat :=
  let sum := (d.reverse.enum.map (fun p => (p.1 % 8 + 2) * digitVal p.2)).sum
  let r := (11 - sum % 11) % 10
  if r = 0 then 1 else r

/-! ## itf.ts : Interleaved 2 of 5 encoder -/

/-- The `DIGIT_WEIGHTS` table of `itf.ts`: the 5-bar narrow/wide pattern of
each decimal digit 0-9. -/
def DIGIT_WEIGHTS : List (List Char) :=
  ["11221".toList, "21112".toList, "12112".toList, "22111".toList, "11212".toList,
   "21211".toList, "12211".toList, "11122".toList, "21121".toList, "12121".toList]

/-- The `BARS_PER_DIGIT` constant of `itf.ts`. -/
def BARS_PER_DIGIT : Nat := 5

/-- The `ITFMarkers.START` constant of `itf.ts`. -/
def ITF_START : List Char := "1111".toList

/-- The `ITFMarkers.STOP` constant of `itf.ts`. -/
def ITF_STOP : List Char := "211".toList

/-- Accumulation of a digit string into a number; the numeric value JS
`parseInt(s, 10)` produces on a string of decimal digit characters. -/
def parseDigits (s : List Char) : Nat := s.foldl (fun acc c => acc * 10 + digitVal c) 0

/-- Models JS `parseInt(s, 10)` on non-negative input without sign or
whitespace: parses the longest leading run of decimal digits, `none`
(JS `NaN`) when there is none. -/
def parseIntJS (s : List Char) : Option Nat :=
  let ds := s.takeWhile Char.isDigit
  if ds.isEmpty then none else some (parseDigits ds)

/-- The body of `interleavePair` in `itf.ts` after `parseInt`: look up the
black pattern at index `pairNum / 10` and the white pattern at
`pairNum % 10` in `DIGIT_WEIGHTS`, then interleave them character by
character over `BARS_PER_DIGIT` positions.  Out-of-range lookups (JS
`undefined`) propagate as `none`. -/
def interleaveNum (pairNum : Nat) : Option (List Char) := do
  let black ← DIGIT_WEIGHTS.get? (pairNum / 10)
  let white ← DIGIT_WEIGHTS.get? (pairNum % 10)
  (List.range BARS_PER_DIGIT).foldlM
    (fun acc i => do
      let b ← black.get? i
      let w ← white.get? i
      pure (acc ++ [b, w]))
    []

/-- The `interleavePair` function of `itf.ts`: `parseInt` the 1-2 character
group, then interleave the two selected weight patterns. -/
def interleavePair (pair : List Char) : Option (List Char) :=
  interleaveNum (parseDigits pair)

/-- The chunking performed by the JS regex match `/(..?)/g`: split the
string into consecutive groups of two characters, the last group possibly a
single character. -/
def pairsOf : List Char → List (List Char)
  | [] => []
  | [c] => [[c]]
  | a :: b :: rest => [a, b] :: pairsOf rest

/-- Models `pairs.map(interleavePair).join('')` in `itf.ts`, with the
propagation of a JS error from any pair. -/
def encodeBlocks : List (List Char) → Option (List Char)
  | [] => some []
  | g :: rest => do
      let block ← interleavePair g
      let blocks ← encodeBlocks rest
      pure (block ++ blocks)

/-- The `encode` function of `itf.ts`: chunk into digit pairs (the JS match
returns `null` on the empty string, yielding START + STOP), interleave each
pair, and wrap the concatenation in the START and STOP markers. -/
def encode (number : List Char) : Option (List Char) :=
  match pairsOf number with
  | [] => some (ITF_START ++ ITF_STOP)
  | gs => do
      let body ← encodeBlocks gs
      pure (ITF_START ++ body ++ ITF_STOP)

/-- Interleaving of two weight patterns as the specification words it:
character by character, black first. -/
def zipInterleave (black white : List Char) : List Char :=
  (black.zip white).foldr (fun p acc => p.1 :: p.2 :: acc) []

/-- The 10-character block the specification assigns to an up-to-2-digit
group: interleave the weight strings selected by `value / 10` (black) and
`value % 10` (white). -/
def specBlock (g : List Char) : List Char :=
  zipInterleave (DIGIT_WEIGHTS.getD (parseDigits g / 10) [])
    (DIGIT_WEIGHTS.getD (parseDigits g % 10) [])

/-! ## svg.ts : SVG renderer -/

/-- The `BarcodeColors.BLACK` constant of `svg.ts`. -/
def BLACK : List Char := "#000000".toList

/-- The `BarcodeColors.WHITE` constant of `svg.ts`. -/
def WHITE : List Char := "#ffffff".toList

/-- The `DEFAULT_BARCODE_HEIGHT` constant of `svg.ts`. -/
def DEFAULT_BARCODE_HEIGHT : ℚ := 100

/-- The `SVG.color` static method of `svg.ts`: `i % 2 ? WHITE : BLACK`. -/
def SVG.color (i : Nat) : List Char := if i % 2 = 0 then BLACK else WHITE

/-- One `rect` element produced by `SVG.render`, with the attributes the
code sets on it. -/
structure SVGRect where
  width : ℚ
  height : ℚ
  x : ℚ
  y : ℚ
  fill : List Char
deriving DecidableEq, Repr

/-- The root `svg` element produced by `SVG.render`: its child rectangles in
document order and its `width`, `height` and `viewBox` attributes (the
viewBox string `0 0 W H` is embedded as the 4-tuple of its numbers). -/
structure SVGImage where
  rects : List SVGRect
  widthAttr : List Char
  heightAttr : List Char
  viewBox : ℚ × ℚ × ℚ × ℚ
deriving DecidableEq, Repr

/-- The `SVG` class state of `svg.ts`: the parsed stripe weights and the
unit stripe width. -/
structure SVG where
  stripes : List Nat
  stripeWidth : ℚ
deriving DecidableEq, Repr

/-- The `SVG` constructor of `svg.ts`: split the pattern string into
characters and `parseInt` each (the claims only apply it to '1'/'2'
patterns, where `parseInt` is `digitVal`). -/
def SVG.mkFromPattern (pattern : List Char) (stripeWidth : ℚ) : SVG :=
  ⟨pattern.map digitVal, stripeWidth⟩

/-- The `SVG.viewBoxWidth` method of `svg.ts`: the sum of the stripe weights
times the unit stripe width. -/
def SVG.viewBoxWidth (s : SVG) : ℚ :=
  ((s.stripes.foldl (fun a b => a + b) 0 : Nat) : ℚ) * s.stripeWidth

/-- The loop of `SVG.render` in `svg.ts`: for each stripe, emit a rectangle
of width `stripeWidth * stripes[i]`, height 100, fill `color(i)`, at
x-position `pos` and y 0, where `pos` advances by the emitted width. -/
def renderLoop (w : ℚ) : List Nat → ℚ → Nat → List SVGRect
  | [], _, _ => []
  | s :: rest, pos, i =>
      { width := w * (s : ℚ), height := DEFAULT_BARCODE_HEIGHT, x := pos, y := 0,
        fill := SVG.color i } :: renderLoop w rest (pos + w * (s : ℚ)) (i + 1)

/-- The `SVG.render` method of `svg.ts` (string-returning path): the child
rectangles from the loop, `width="100%"`, `height="100%"` and
`viewBox="0 0 (viewBoxWidth) 100"`. -/
def SVG.render (s : SVG) : SVGImage :=
  { rects := renderLoop s.stripeWidth s.stripes 0 0
    widthAttr := "100%".toList
    heightAttr := "100%".toList
    viewBox := (0, 0, s.viewBoxWidth, DEFAULT_BARCODE_HEIGHT) }

/-! ## boleto.ts : the Boleto class -/

/-- The `BOLETO_EPOCH` constant of `boleto.ts` (1997-10-07 12:00:00
GMT-0300 as epoch milliseconds). -/
def BOLETO_EPOCH : Nat := 876236400000

/-- The `MILLISECONDS_PER_DAY` constant of `boleto.ts`. -/
def MILLISECONDS_PER_DAY : Nat := 86400000

/-- The `BANK_SLIP_NUMBER_LENGTH` constant of `boleto.ts`. -/
def BANK_SLIP_NUMBER_LENGTH : Nat := 47

/-- The `Currency` interface of `boleto.ts`. -/
structure Currency where
  code : List Char
  symbol : List Char
  decimal : List Char
deriving DecidableEq, Repr

/-- The `BRL_CURRENCY` constant of `boleto.ts`. -/
def BRL_CURRENCY : Currency :=
  { code := "BRL".toList, symbol := "R$".toList, decimal := ",".toList }

/-- The `BANK_CODES` table of `boleto.ts`. -/
def BANK_CODES : List (List Char × List Char) :=
  [("001".toList, "Banco do Brasil".toList),
   ("007".toList, "BNDES".toList),
   ("033".toList, "Santander".toList),
   ("069".toList, "Crefisa".toList),
   ("077".toList, "Banco Inter".toList),
   ("102".toList, "XP Investimentos".toList),
   ("104".toList, "Caixa Econômica Federal".toList),
   ("140".toList, "Easynvest".toList),
   ("197".toList, "Stone".toList),
   ("208".toList, "BTG Pactual".toList),
   ("212".toList, "Banco Original".toList),
   ("237".toList, "Bradesco".toList),
   ("260".toList, "Nu Pagamentos".toList),
   ("341".toList, "Itaú".toList),
   ("389".toList, "Banco Mercantil do Brasil".toList),
   ("422".toList, "Banco Safra".toList),
   ("505".toList, "Credit Suisse".toList),
   ("633".toList, "Banco Rendimento".toList),
   ("652".toList, "Itaú Unibanco".toList),
   ("735".toList, "Banco Neon".toList),
   ("739".toList, "Banco Cetelem".toList),
   ("745".toList, "Citibank".toList)]

/-- Models the JS `String.replace(/[^\d]/g, '')` call in the `Boleto`
constructor: keep only decimal digit characters. -/
def stripNonDigits (s : List Char) : List Char := s.filter Char.isDigit

/-- The rearrangement regex replace of `Boleto.barcode`: when the stored
number is 47 decimal digits it matches
`^(\d{4})(\d{5})\d(\d{10})\d(\d{10})\d(\d{15})$` and is replaced by
`$1$5$2$3$4`; otherwise the string is returned unchanged. -/
def rearrange (n : List Char) : List Char :=
  if n.length = 47 ∧ n.all Char.isDigit = true then
    n.take 4 ++ (n.drop 32).take 15 ++ (n.drop 4).take 5 ++
      (n.drop 10).take 10 ++ (n.drop 21).take 10
  else n

/-- The `Boleto` class state: the stored digits-only bank slip number. -/
structure Boleto where
  bankSlipNumber : List Char
deriving DecidableEq, Repr

/-- The `Boleto.barcode` method. -/
def Boleto.barcode (b : Boleto) : List Char := rearrange b.bankSlipNumber

/-- The `Boleto.valid` method: length must be 47; then the barcode digit
spliced out at position 4 must equal `modulo11` of the remaining digits,
compared via the JS number-to-string conversion. -/
def Boleto.valid (b : Boleto) : Bool :=
  if b.bankSlipNumber.length ≠ BANK_SLIP_NUMBER_LENGTH then false
  else
    let bd := b.barcode
    let rest := bd.take 4 ++ bd.drop 5
    match bd.get? 4 with
    | some c => Nat.repr (modulo11 rest) == String.mk [c]
    | none => false

/-- The `Boleto` constructor: strip non-digits, then throw a
`BoletoValidationError` carrying the message and the stripped number when
`valid()` is false. -/
def constructBoleto (input : List Char) : Except (String × List Char) Boleto :=
  let b : Boleto := ⟨stripNonDigits input⟩
  if b.valid then Except.ok b
  else Except.error ("Invalid bank slip number", b.bankSlipNumber)

/-- The `Boleto.number` method. -/
def Boleto.number (b : Boleto) : List Char := b.bankSlipNumber

/-- The `Boleto.prettyNumber` method: the regex replace inserting the mask
`$1.$2 $3.$4 $5.$6 $7 $8` over groups of 5,5,5,6,5,6,1,14 digits; a string
that does not match (not 47 digits) is returned unchanged. -/
def Boleto.prettyNumber (b : Boleto) : List Char :=
  let n := b.bankSlipNumber
  if n.length = 47 ∧ n.all Char.isDigit = true then
    n.take 5 ++ '.' :: (n.drop 5).take 5 ++ ' ' ::
      (n.drop 10).take 5 ++ '.' :: (n.drop 15).take 6 ++ ' ' ::
      (n.drop 21).take 5 ++ '.' :: (n.drop 26).take 6 ++ ' ' ::
      (n.drop 32).take 1 ++ ' ' :: (n.drop 33).take 14
  else n

/-- The `Boleto.bank` method: look up the first three barcode digits in
`BANK_CODES`, defaulting to "Unknown". -/
def Boleto.bank (b : Boleto) : List Char :=
  match BANK_CODES.lookup (b.barcode.take 3) with
  | some nm => nm
  | none => "Unknown".toList

/-- The `Boleto.currency` method: the BRL descriptor when barcode digit 3 is
'9', otherwise `null` (embedded as `none`). -/
def Boleto.currency (b : Boleto) : Option Currency :=
  if b.barcode.get? 3 = some '9' then some BRL_CURRENCY else none

/-- The `Boleto.checksum` method: the barcode character at position 4 (JS
indexing out of bounds gives `undefined`, embedded as `none`). -/
def Boleto.checksum (b : Boleto) : Option Char := b.barcode.get? 4

/-- The `Boleto.expirationDate` method, as the epoch-millisecond timestamp
of the returned `Date`: `BOLETO_EPOCH` plus `parseInt(barcode[5:9])` days of
exactly `MILLISECONDS_PER_DAY` each. -/
def Boleto.expirationDate (b : Boleto) : Option Nat :=
  (parseIntJS ((b.barcode.drop 5).take 4)).map
    (fun days => BOLETO_EPOCH + days * MILLISECONDS_PER_DAY)

/-- Decimal formatting of a cent amount: models
`(n / 100.0).toFixed(2)` in `Boleto.amount`.  For every cent value the
barcode can hold (10 decimal digits, so below 10^10) the IEEE-754 double
computation `n / 100.0` is within 3e-8 of the exact two-decimal value, so
`toFixed(2)` recovers the exact decimal string embedded here. -/
def toFixed2 (cents : Nat) : List Char :=
  (Nat.repr (cents / 100)).toList ++
    '.' :: (if cents % 100 < 10 then '0' :: (Nat.repr (cents % 100)).toList
            else (Nat.repr (cents % 100)).toList)

/-- The `Boleto.amount` method: `parseInt(barcode[9:19])` divided by 100,
formatted with two decimal places. -/
def Boleto.amount (b : Boleto) : Option (List Char) :=
  (parseIntJS ((b.barcode.drop 9).take 10)).map toFixed2

/-- Models the JS `String.replace('.', rep)` call: replace the first
occurrence of the character `pat` by the string `rep`. -/
def replaceFirstStr (s : List Char) (pat : Char) (rep : List Char) : List Char :=
  match s with
  | [] => []
  | c :: rest => if c = pat then rep ++ rest else c :: replaceFirstStr rest pat rep

/-- The `Boleto.prettyAmount` method: the plain amount when the currency is
unknown, otherwise the currency symbol, a space, and the amount with '.'
replaced by the currency's decimal separator. -/
def Boleto.prettyAmount (b : Boleto) : Option (List Char) :=
  match b.currency with
  | none => b.amount
  | some cur =>
      b.amount.map (fun a => cur.symbol ++ ' ' :: replaceFirstStr a '.' cur.decimal)

/-! ## Example input from the specification's test vectors -/

/-- The Printed Slip Number used as the specification's worked example. -/
def exampleNumber : List Char :=
  "23793.38128 86000.000009 00000.000380 1 84660000012345".toList

/-- The Boleto instance the constructor builds from `exampleNumber`. -/
def exampleBoleto : Boleto := ⟨stripNonDigits exampleNumber⟩

/-! ## Lemmas about modulo11 -/

theorem modulo11SumLoop_eq (l : List Char) :
    ∀ (i acc : Nat), modulo11SumLoop l i acc =
      acc + ((List.enumFrom i l).map (fun p => (p.1 % 8 + 2) * digitVal p.2)).sum := by
  induction l with
  | nil => intro i acc; simp [modulo11SumLoop]
  | cons c rest ih =>
      intro i acc
      simp [modulo11SumLoop, List.enumFrom, ih (i + 1)]
      ring

theorem modulo11_eq_ref (d : List Char) : modulo11 d = modulo11Ref d := by
  simp only [modulo11, modulo11Ref, modulo11SumLoop_eq, List.enum, Nat.zero_add]

theorem modulo11_bounds (d : List Char) : 1 ≤ modulo11 d ∧ modulo11 d ≤ 9 := by
  unfold modulo11
  set sum := modulo11SumLoop d.reverse 0 0 with hsum
  have h1 : (11 - sum % 11) % 10 < 10 := Nat.mod_lt _ (by omega)
  by_cases h : (11 - sum % 11) % 10 = 0
  · simp [h]
  · simp [h]
    omega

/-- C3: For every sequence of decimal digit characters, `modulo11` equals
the reference definition (reverse, weights `(i % 8) + 2` on reversed
positions, `(11 - (sum % 11)) % 10` mapped to 1 when 0); and
`modulo11("123456789") = 7`. -/
theorem modulo11_matches_reference :
    (∀ d : List Char, (∀ c ∈ d, c.isDigit = true) → modulo11 d = modulo11Ref d) ∧
      modulo11 "123456789".toList = 7 :=
  ⟨fun d _ => modulo11_eq_ref d, by decide⟩

theorem modulo11_matches_reference_witness :
    modulo11 "42".toList = modulo11Ref "42".toList :=
  modulo11_matches_reference.1 "42".toList (by decide)

/-- C6: For every sequence of decimal digit characters, including the empty
one, `modulo11` returns a value in {1,...,9}, never 0; in particular
`modulo11("") = 1` and `modulo11("0") = 1`. -/
theorem modulo11_range :
    (∀ d : List Char, (∀ c ∈ d, c.isDigit = true) →
        1 ≤ modulo11 d ∧ modulo11 d ≤ 9 ∧ modulo11 d ≠ 0) ∧
      modulo11 [] = 1 ∧ modulo11 ['0'] = 1 :=
  ⟨fun d _ =>
    ⟨(modulo11_bounds d).1, (modulo11_bounds d).2, by have := (modulo11_bounds d).1; omega⟩,
   by decide, by decide⟩

theorem modulo11_range_witness :
    1 ≤ modulo11 "7".toList ∧ modulo11 "7".toList ≤ 9 ∧ modulo11 "7".toList ≠ 0 :=
  modulo11_range.1 "7".toList (by decide)

/-! ## Lemmas about digit characters -/

theorem isDigit_toNat {c : Char} (h : c.isDigit = true) :
    48 ≤ c.toNat ∧ c.toNat ≤ 57 := by
  simp [Char.isDigit] at h
  exact h

theorem digitVal_lt_10 {c : Char} (h : c.isDigit = true) : digitVal c < 10 := by
  have := isDigit_toNat h
  unfold digitVal
  omega

theorem char_of_digitVal {c : Char} (h : c.isDigit = true) :
    c = Char.ofNat (48 + digitVal c) := by
  have hb := isDigit_toNat h
  have : 48 + digitVal c = c.toNat := by unfold digitVal; omega
  rw [this, Char.ofNat_toNat]

theorem repr_digit : ∀ n : Nat, n < 10 → 1 ≤ n →
    (Nat.repr n).toList = [Char.ofNat (48 + n)] := by decide

theorem toNat_ofNat_digit : ∀ n : Nat, n < 10 →
    (Char.ofNat (48 + n)).toNat = 48 + n := by decide

/-! ## Lemmas about the rearrangement and validation -/

theorem stripNonDigits_all (s : List Char) :
    (stripNonDigits s).all Char.isDigit = true := by
  simp only [stripNonDigits, List.all_eq_true, List.mem_filter]
  intro c hc
  exact hc.2

theorem rearrange_eq {s : List Char} (h47 : s.length = 47)
    (hd : s.all Char.isDigit = true) :
    rearrange s = s.take 4 ++ (s.drop 32).take 15 ++ (s.drop 4).take 5 ++
      (s.drop 10).take 10 ++ (s.drop 21).take 10 := by
  unfold rearrange
  rw [if_pos ⟨h47, hd⟩]

theorem rearrange_length {s : List Char} (h47 : s.length = 47)
    (hd : s.all Char.isDigit = true) : (rearrange s).length = 44 := by
  rw [rearrange_eq h47 hd]
  simp [List.length_take, List.length_drop, h47]

theorem mem_rearrange {s : List Char} (h47 : s.length = 47)
    (hd : s.all Char.isDigit = true) {c : Char} (hc : c ∈ rearrange s) : c ∈ s := by
  rw [rearrange_eq h47 hd] at hc
  simp only [List.mem_append] at hc
  rcases hc with ((((h | h) | h) | h) | h)
  · exact List.mem_of_mem_take h
  · exact List.mem_of_mem_drop (List.mem_of_mem_take h)
  · exact List.mem_of_mem_drop (List.mem_of_mem_take h)
  · exact List.mem_of_mem_drop (List.mem_of_mem_take h)
  · exact List.mem_of_mem_drop (List.mem_of_mem_take h)

theorem rearrange_all {s : List Char} (h47 : s.length = 47)
    (hd : s.all Char.isDigit = true) :
    ∀ c ∈ rearrange s, c.isDigit = true := by
  intro c hc
  exact (List.all_eq_true.mp hd) c (mem_rearrange h47 hd hc)

theorem takeWhile_all_digits {l : List Char} (hd : ∀ c ∈ l, c.isDigit = true) :
    l.takeWhile Char.isDigit = l := by
  induction l with
  | nil => rfl
  | cons a t ih =>
      rw [List.takeWhile_cons]
      rw [hd a (by simp)]
      simp only [if_true]
      rw [ih (fun c hc => hd c (by simp [hc]))]

theorem parseIntJS_digits {l : List Char} (hne : l ≠ [])
    (hd : ∀ c ∈ l, c.isDigit = true) : parseIntJS l = some (parseDigits l) := by
  unfold parseIntJS
  rw [takeWhile_all_digits hd]
  simp [List.isEmpty_iff, hne]

theorem repr_eq_digit_iff {c : Char} {m : Nat} (hc : c.isDigit = true)
    (h1 : 1 ≤ m) (h9 : m ≤ 9) :
    (Nat.repr m == String.mk [c]) = true ↔ digitVal c = m := by
  rw [beq_iff_eq]
  constructor
  · intro h
    have hdata : (Nat.repr m).toList = [c] := by rw [h]; rfl
    rw [repr_digit m (by omega) h1] at hdata
    have hcEq : Char.ofNat (48 + m) = c := by
      injection hdata
    have ht := toNat_ofNat_digit m (by omega)
    unfold digitVal
    rw [← hcEq, ht]
    omega
  · intro h
    have hcEq : c = Char.ofNat (48 + m) := by
      rw [← h]
      exact char_of_digitVal hc
    apply String.ext
    show (Nat.repr m).toList = [c]
    rw [repr_digit m (by omega) h1, hcEq]

theorem valid_iff {s : List Char} (hd : s.all Char.isDigit = true) :
    (Boleto.mk s).valid = true ↔
      (s.length = 47 ∧ ∃ c, (rearrange s).get? 4 = some c ∧
        digitVal c = modulo11 ((rearrange s).take 4 ++ (rearrange s).drop 5)) := by
  unfold Boleto.valid
  by_cases h47 : s.length = 47
  · have hlen : (rearrange s).length = 44 := rearrange_length h47 hd
    have h4 : 4 < (rearrange s).length := by omega
    have hget : (rearrange s).get? 4 = some ((rearrange s).get ⟨4, h4⟩) :=
      List.get?_eq_get h4
    set c := (rearrange s).get ⟨4, h4⟩ with hcdef
    have hcd : c.isDigit = true :=
      rearrange_all h47 hd c (List.get_mem _ _ _)
    have hb : (Boleto.mk s).barcode = rearrange s := rfl
    simp only [Boleto.valid, BANK_SLIP_NUMBER_LENGTH, hb, hget, h47]
    have hm := modulo11_bounds ((rearrange s).take 4 ++ (rearrange s).drop 5)
    rw [if_neg (by simp)]
    rw [repr_eq_digit_iff hcd hm.1 hm.2]
    constructor
    · intro h
      exact ⟨trivial, c, rfl, h⟩
    · rintro ⟨-, c', hc', hv⟩
      injection hc' with hc'
      rw [hc']
      exact hv
  · simp only [Boleto.valid, BANK_SLIP_NUMBER_LENGTH]
    rw [if_pos (by simpa using h47)]
    simp [h47]

theorem slice_digits {l : List Char} (hall : ∀ c ∈ l, c.isDigit = true)
    (a b : Nat) : ∀ c ∈ (l.drop a).take b, c.isDigit = true :=
  fun c hc => hall c (List.mem_of_mem_drop (List.mem_of_mem_take hc))

theorem slice_ne_nil {l : List Char} {a b : Nat} (ha : a + b ≤ l.length)
    (hb : 0 < b) : (l.drop a).take b ≠ [] := by
  have hlen : ((l.drop a).take b).length = b := by
    simp [List.length_take, List.length_drop]
    omega
  intro hnil
  rw [hnil] at hlen
  simp at hlen
  omega

theorem accessors_isSome {s : List Char} (hd : s.all Char.isDigit = true)
    (h47 : s.length = 47) :
    (Boleto.mk s).checksum.isSome = true ∧
      (Boleto.mk s).expirationDate.isSome = true ∧
      (Boleto.mk s).amount.isSome = true ∧
      (Boleto.mk s).prettyAmount.isSome = true := by
  have hlen := rearrange_length h47 hd
  have hall := rearrange_all h47 hd
  have hb : (Boleto.mk s).barcode = rearrange s := rfl
  have hcs : (Boleto.mk s).checksum.isSome = true := by
    unfold Boleto.checksum
    rw [hb, List.get?_eq_get (by omega : 4 < (rearrange s).length)]
    rfl
  have hexp : (Boleto.mk s).expirationDate.isSome = true := by
    unfold Boleto.expirationDate
    rw [hb, parseIntJS_digits (slice_ne_nil (by omega) (by omega))
      (slice_digits hall 5 4)]
    rfl
  have hamt : (Boleto.mk s).amount.isSome = true := by
    unfold Boleto.amount
    rw [hb, parseIntJS_digits (slice_ne_nil (by omega) (by omega))
      (slice_digits hall 9 10)]
    rfl
  refine ⟨hcs, hexp, hamt, ?_⟩
  obtain ⟨a, ha⟩ := Option.isSome_iff_exists.mp hamt
  unfold Boleto.prettyAmount
  cases hcur : (Boleto.mk s).currency with
  | none => rw [ha]; rfl
  | some cur => rw [ha]; rfl

/-- C1: Construction strips every non-digit character; it fails with a
validation error carrying the message and the stripped digit string exactly
when the stripped length is not 47 or the barcode digit at offset 4 differs
from `modulo11` of the other 43 barcode digits; and on a successfully
constructed instance the partial accessors (`checksum`, `expirationDate`,
`amount`, `prettyAmount`; the remaining accessors are total functions in
this embedding) all produce a value. -/
theorem boleto_construction_validation (input : List Char) :
    ((∃ e, constructBoleto input = Except.error e) ↔
      ((stripNonDigits input).length ≠ 47 ∨
        ¬ ∃ c, (rearrange (stripNonDigits input)).get? 4 = some c ∧
          digitVal c = modulo11 ((rearrange (stripNonDigits input)).take 4 ++
            (rearrange (stripNonDigits input)).drop 5))) ∧
    (∀ e, constructBoleto input = Except.error e →
      e = ("Invalid bank slip number", stripNonDigits input)) ∧
    (∀ b, constructBoleto input = Except.ok b →
      b.bankSlipNumber = stripNonDigits input ∧
      b.checksum.isSome = true ∧ b.expirationDate.isSome = true ∧
        b.amount.isSome = true ∧ b.prettyAmount.isSome = true) := by
  have hd := stripNonDigits_all input
  by_cases hv : (Boleto.mk (stripNonDigits input)).valid = true
  · have hok : constructBoleto input = Except.ok (Boleto.mk (stripNonDigits input)) := by
      unfold constructBoleto
      rw [if_pos hv]
    obtain ⟨h47, -⟩ := (valid_iff hd).mp hv
    refine ⟨?_, ?_, ?_⟩
    · constructor
      · rintro ⟨e, he⟩
        rw [hok] at he
        exact absurd he (by simp)
      · intro h
        rcases h with h | h
        · exact absurd h47 h
        · exact absurd ((valid_iff hd).mp hv).2 h
    · intro e he
      rw [hok] at he
      exact absurd he (by simp)
    · intro b hb
      rw [hok] at hb
      injection hb with hb
      rw [← hb]
      exact ⟨rfl, accessors_isSome hd h47⟩
  · have herr : constructBoleto input =
        Except.error ("Invalid bank slip number", stripNonDigits input) := by
      unfold constructBoleto
      rw [if_neg hv]
    have hnot := (not_congr (valid_iff hd)).mp hv
    rw [not_and_or] at hnot
    refine ⟨?_, ?_, ?_⟩
    · constructor
      · intro _
        exact hnot
      · intro _
        exact ⟨_, herr⟩
    · intro e he
      rw [herr] at he
      injection he with he
      exact he.symm
    · intro b hb
      rw [herr] at hb
      exact absurd hb (by simp)

theorem boleto_construction_validation_witness :
    exampleBoleto.bankSlipNumber = stripNonDigits exampleNumber ∧
      exampleBoleto.checksum.isSome = true ∧
      exampleBoleto.expirationDate.isSome = true ∧
      exampleBoleto.amount.isSome = true ∧
      exampleBoleto.prettyAmount.isSome = true :=
  (boleto_construction_validation exampleNumber).2.2 exampleBoleto (by rfl)

/-- C9: Every Boleto instance the constructor returns satisfies `valid()`,
and its `number()` is a string of exactly 47 decimal digit characters;
no constructed-but-invalid state is reachable. -/
theorem constructed_boleto_invariant :
    ∀ (input : List Char) (b : Boleto), constructBoleto input = Except.ok b →
      b.valid = true ∧ b.number.length = 47 ∧ b.number.all Char.isDigit = true := by
  intro input b hb
  unfold constructBoleto at hb
  by_cases hv : (Boleto.mk (stripNonDigits input)).valid = true
  · rw [if_pos hv] at hb
    injection hb with hb
    have hd := stripNonDigits_all input
    have h47 := ((valid_iff hd).mp hv).1
    rw [← hb]
    exact ⟨hv, h47, hd⟩
  · rw [if_neg hv] at hb
    exact absurd hb (by simp)

theorem constructed_boleto_invariant_witness :
    exampleBoleto.valid = true ∧ exampleBoleto.number.length = 47 ∧
      exampleBoleto.number.all Char.isDigit = true :=
  constructed_boleto_invariant exampleNumber exampleBoleto (by rfl)

/-- C2: For every successfully constructed Boleto the barcode is 44 decimal
digits, equal to the concatenation group1 + group5 + group2 + group3 +
group4 of the 47-digit number laid out as group1(4), group2(5), discard(1),
group3(10), discard(1), group4(10), discard(1), group5(15); and for the
specification's example input the barcode, bank name and amount are the
stated values. -/
theorem barcode_rearrangement :
    (∀ (input : List Char) (b : Boleto), constructBoleto input = Except.ok b →
      b.barcode.length = 44 ∧ (∀ c ∈ b.barcode, c.isDigit = true) ∧
        b.barcode = b.number.take 4 ++ (b.number.drop 32).take 15 ++
          (b.number.drop 4).take 5 ++ (b.number.drop 10).take 10 ++
          (b.number.drop 21).take 10) ∧
    constructBoleto exampleNumber = Except.ok exampleBoleto ∧
    exampleBoleto.barcode = "23791846600000123453381286000000000000000038".toList ∧
    exampleBoleto.bank = "Bradesco".toList ∧
    exampleBoleto.amount = some "123.45".toList := by
  constructor
  · intro input b hb
    unfold constructBoleto at hb
    by_cases hv : (Boleto.mk (stripNonDigits input)).valid = true
    · rw [if_pos hv] at hb
      injection hb with hb
      have hd := stripNonDigits_all input
      have h47 := ((valid_iff hd).mp hv).1
      rw [← hb]
      exact ⟨rearrange_length h47 hd, rearrange_all h47 hd, rearrange_eq h47 hd⟩
    · rw [if_neg hv] at hb
      exact absurd hb (by simp)
  · exact ⟨by rfl, by rfl, by rfl, by rfl⟩

theorem barcode_rearrangement_witness :
    exampleBoleto.barcode.length = 44 ∧
      (∀ c ∈ exampleBoleto.barcode, c.isDigit = true) ∧
      exampleBoleto.barcode = exampleBoleto.number.take 4 ++
        (exampleBoleto.number.drop 32).take 15 ++
        (exampleBoleto.number.drop 4).take 5 ++
        (exampleBoleto.number.drop 10).take 10 ++
        (exampleBoleto.number.drop 21).take 10 :=
  barcode_rearrangement.1 exampleNumber exampleBoleto (by rfl)

/-- C7: On a constructed Boleto, `currency()` is the BRL descriptor
exactly when barcode digit 3 is '9' and absent otherwise, and
`prettyAmount()` is the symbol, a space and the amount with '.' replaced by
the currency's decimal separator when the currency is known, the plain
amount otherwise. -/
theorem currency_prettyAmount :
    ∀ (input : List Char) (b : Boleto), constructBoleto input = Except.ok b →
      (b.currency = some BRL_CURRENCY ↔ b.barcode.get? 3 = some '9') ∧
      (b.currency = none ↔ ¬ b.barcode.get? 3 = some '9') ∧
      BRL_CURRENCY =
        { code := "BRL".toList, symbol := "R$".toList, decimal := ",".toList } ∧
      (∀ cur, b.currency = some cur →
        b.prettyAmount = b.amount.map
          (fun a => cur.symbol ++ ' ' :: replaceFirstStr a '.' cur.decimal)) ∧
      (b.currency = none → b.prettyAmount = b.amount) := by
  intro input b _
  refine ⟨?_, ?_, rfl, ?_, ?_⟩
  · by_cases h9 : b.barcode.get? 3 = some '9' <;> simp [Boleto.currency, h9]
  · by_cases h9 : b.barcode.get? 3 = some '9' <;> simp [Boleto.currency, h9]
  · intro cur hcur
    simp [Boleto.prettyAmount, hcur]
  · intro hcur
    simp [Boleto.prettyAmount, hcur]

theorem currency_prettyAmount_witness :
    (exampleBoleto.currency = some BRL_CURRENCY ↔
      exampleBoleto.barcode.get? 3 = some '9') ∧
      (exampleBoleto.currency = none ↔
        ¬ exampleBoleto.barcode.get? 3 = some '9') ∧
      BRL_CURRENCY =
        { code := "BRL".toList, symbol := "R$".toList, decimal := ",".toList } ∧
      (∀ cur, exampleBoleto.currency = some cur →
        exampleBoleto.prettyAmount = exampleBoleto.amount.map
          (fun a => cur.symbol ++ ' ' :: replaceFirstStr a '.' cur.decimal)) ∧
      (exampleBoleto.currency = none →
        exampleBoleto.prettyAmount = exampleBoleto.amount) :=
  currency_prettyAmount exampleNumber exampleBoleto (by rfl)

/-- C8: On a constructed Boleto, `expirationDate()` equals the fixed epoch
876236400000 ms plus the integer parsed from barcode digits 5 through 8
times exactly 86400000 ms, as pure epoch-millisecond addition. -/
theorem expiration_date_formula :
    ∀ (input : List Char) (b : Boleto), constructBoleto input = Except.ok b →
      b.expirationDate = some (876236400000 +
        parseDigits ((b.barcode.drop 5).take 4) * 86400000) := by
  intro input b hb
  unfold constructBoleto at hb
  by_cases hv : (Boleto.mk (stripNonDigits input)).valid = true
  · rw [if_pos hv] at hb
    injection hb with hb
    have hd := stripNonDigits_all input
    have h47 := ((valid_iff hd).mp hv).1
    have hlen := rearrange_length h47 hd
    have hall := rearrange_all h47 hd
    rw [← hb]
    have hbar : (Boleto.mk (stripNonDigits input)).barcode =
        rearrange (stripNonDigits input) := rfl
    unfold Boleto.expirationDate
    rw [hbar, parseIntJS_digits (slice_ne_nil (by omega) (by omega))
      (slice_digits hall 5 4)]
    rfl
  · rw [if_neg hv] at hb
    exact absurd hb (by simp)

theorem expiration_date_formula_witness :
    exampleBoleto.expirationDate = some (876236400000 +
      parseDigits ((exampleBoleto.barcode.drop 5).take 4) * 86400000) :=
  expiration_date_formula exampleNumber exampleBoleto (by rfl)

/-! ## Lemmas about the ITF encoder -/

theorem pairsOf_shape : ∀ (s : List Char), ∀ g ∈ pairsOf s,
    (∃ a, g = [a] ∧ a ∈ s) ∨ (∃ a b, g = [a, b] ∧ a ∈ s ∧ b ∈ s)
  | [] => by simp [pairsOf]
  | [c] => by simp [pairsOf]
  | a :: b :: rest => by
      intro g hg
      simp only [pairsOf, List.mem_cons] at hg
      rcases hg with rfl | hg
      · right
        exact ⟨a, b, rfl, by simp, by simp⟩
      · rcases pairsOf_shape rest g hg with ⟨x, rfl, hx⟩ | ⟨x, y, rfl, hx, hy⟩
        · left
          exact ⟨x, rfl, by simp [hx]⟩
        · right
          exact ⟨x, y, rfl, by simp [hx], by simp [hy]⟩

theorem pairsOf_length : ∀ (s : List Char), (pairsOf s).length = (s.length + 1) / 2
  | [] => by simp [pairsOf]
  | [c] => by simp [pairsOf]
  | a :: b :: rest => by
      have := pairsOf_length rest
      simp only [pairsOf, List.length_cons]
      omega

theorem parseDigits_single {d : Char} : parseDigits [d] = digitVal d := by
  simp [parseDigits]

theorem parseDigits_group_lt {g : List Char}
    (h : (∃ a, g = [a] ∧ a.isDigit = true) ∨
      (∃ a b, g = [a, b] ∧ a.isDigit = true ∧ b.isDigit = true)) :
    parseDigits g < 100 := by
  rcases h with ⟨a, rfl, ha⟩ | ⟨a, b, rfl, ha, hb⟩
  · have := digitVal_lt_10 ha
    rw [parseDigits_single]
    omega
  · have h1 := digitVal_lt_10 ha
    have h2 := digitVal_lt_10 hb
    simp [parseDigits]
    omega

theorem interleaveNum_eq_spec : ∀ v : Nat, v < 100 →
    interleaveNum v = some (zipInterleave (DIGIT_WEIGHTS.getD (v / 10) [])
      (DIGIT_WEIGHTS.getD (v % 10) [])) := by decide

theorem interleavePair_eq_specBlock {g : List Char} (h : parseDigits g < 100) :
    interleavePair g = some (specBlock g) := by
  unfold interleavePair specBlock
  exact interleaveNum_eq_spec (parseDigits g) h

theorem foldr_interleave_length : ∀ (l : List (Char × Char)),
    (l.foldr (fun p acc => p.1 :: p.2 :: acc) []).length = 2 * l.length
  | [] => rfl
  | p :: rest => by
      have := foldr_interleave_length rest
      simp [List.foldr]
      omega

theorem weights_getD_length : ∀ i : Nat, i < 10 →
    (DIGIT_WEIGHTS.getD i []).length = 5 := by decide

theorem specBlock_length {g : List Char} (h : parseDigits g < 100) :
    (specBlock g).length = 10 := by
  unfold specBlock zipInterleave
  rw [foldr_interleave_length, List.length_zip]
  rw [weights_getD_length _ (by omega), weights_getD_length _ (Nat.mod_lt _ (by omega))]
  decide

theorem encodeBlocks_eq_map : ∀ (gs : List (List Char)),
    (∀ g ∈ gs, interleavePair g = some (specBlock g)) →
    encodeBlocks gs = some ((gs.map specBlock).flatten)
  | [] => by simp [encodeBlocks]
  | g :: rest => by
      intro h
      have hg := h g (by simp)
      have hrest := encodeBlocks_eq_map rest (fun x hx => h x (by simp [hx]))
      simp [encodeBlocks, hg, hrest]

theorem pairsOf_all_specBlock {s : List Char} (hd : ∀ c ∈ s, c.isDigit = true) :
    ∀ g ∈ pairsOf s, parseDigits g < 100 := by
  intro g hg
  apply parseDigits_group_lt
  rcases pairsOf_shape s g hg with ⟨a, rfl, ha⟩ | ⟨a, b, rfl, ha, hb⟩
  · exact Or.inl ⟨a, rfl, hd a ha⟩
  · exact Or.inr ⟨a, b, rfl, hd a ha, hd b hb⟩

theorem encode_eq_spec {s : List Char} (hd : ∀ c ∈ s, c.isDigit = true) :
    encode s = some (ITF_START ++ ((pairsOf s).map specBlock).flatten ++ ITF_STOP) := by
  have hall : ∀ g ∈ pairsOf s, interleavePair g = some (specBlock g) :=
    fun g hg => interleavePair_eq_specBlock (pairsOf_all_specBlock hd g hg)
  cases hps : pairsOf s with
  | nil => simp [encode, hps]
  | cons g gs =>
      rw [hps] at hall
      simp only [encode, hps]
      rw [encodeBlocks_eq_map _ hall]
      rfl

theorem blocks_flatten_length : ∀ (gs : List (List Char)),
    (∀ g ∈ gs, (specBlock g).length = 10) →
    ((gs.map specBlock).flatten).length = 10 * gs.length
  | [] => by simp
  | g :: rest => by
      intro h
      simp only [List.map_cons, List.flatten_cons, List.length_append, List.length_cons]
      rw [h g (by simp), blocks_flatten_length rest (fun x hx => h x (by simp [hx]))]
      omega

/-- C4: For every string of decimal digits, `encode` returns the START
marker, one 10-character block per left-to-right group of up to two digits
(interleaving the weight strings selected by `value / 10` and `value % 10`,
so a lone trailing digit d uses weights[0] and weights[d]), then the STOP
marker; the output length is `4 + 10 * ceil(n / 2) + 3`; and
`encode("") = "1111211"`, `encode("01") = "1111" ++ "1211212112" ++ "211"`. -/
theorem itf_encode_structure :
    (∀ s : List Char, (∀ c ∈ s, c.isDigit = true) →
      encode s = some (ITF_START ++ ((pairsOf s).map specBlock).flatten ++ ITF_STOP) ∧
      (∀ out, encode s = some out → out.length = 4 + 10 * ((s.length + 1) / 2) + 3) ∧
      (∀ d, d.isDigit = true → specBlock [d] =
        zipInterleave (DIGIT_WEIGHTS.getD 0 []) (DIGIT_WEIGHTS.getD (digitVal d) []))) ∧
    encode [] = some "1111211".toList ∧
    encode "01".toList =
      some ("1111".toList ++ "1211212112".toList ++ "211".toList) := by
  refine ⟨?_, by decide, by decide⟩
  intro s hd
  have henc := encode_eq_spec hd
  refine ⟨henc, ?_, ?_⟩
  · intro out hout
    rw [henc] at hout
    injection hout with hout
    have hten : ∀ g ∈ pairsOf s, (specBlock g).length = 10 :=
      fun g hg => specBlock_length (pairsOf_all_specBlock hd g hg)
    rw [← hout]
    simp only [List.length_append]
    rw [blocks_flatten_length _ hten, pairsOf_length]
    have h1 : ITF_START.length = 4 := by decide
    have h2 : ITF_STOP.length = 3 := by decide
    omega
  · intro d hdig
    have hv := digitVal_lt_10 hdig
    unfold specBlock
    rw [parseDigits_single, Nat.div_eq_of_lt hv, Nat.mod_eq_of_lt hv]

theorem itf_encode_structure_witness :
    encode "38".toList = some (ITF_START ++
      ((pairsOf "38".toList).map specBlock).flatten ++ ITF_STOP) :=
  (itf_encode_structure.1 "38".toList (by decide)).1

/-! ## Lemmas about the encoder output alphabet -/

theorem foldr_interleave_mem : ∀ (l : List (Char × Char)) (c : Char),
    c ∈ l.foldr (fun p acc => p.1 :: p.2 :: acc) [] → ∃ p ∈ l, c = p.1 ∨ c = p.2
  | [], c => by simp
  | p :: rest, c => by
      intro h
      simp only [List.foldr, List.mem_cons] at h
      rcases h with rfl | rfl | h
      · exact ⟨p, by simp, Or.inl rfl⟩
      · exact ⟨p, by simp, Or.inr rfl⟩
      · obtain ⟨q, hq, hc⟩ := foldr_interleave_mem rest c h
        exact ⟨q, by simp [hq], hc⟩

theorem weights_getD_chars : ∀ i : Nat, ∀ c ∈ DIGIT_WEIGHTS.getD i [],
    c = '1' ∨ c = '2' := by
  intro i c hc
  by_cases h : i < 10
  · revert c hc
    revert h
    revert i
    decide
  · rw [List.getD_eq_default] at hc
    · exact absurd hc (by simp)
    · have : DIGIT_WEIGHTS.length = 10 := by decide
      omega

theorem mem_zipInterleave {b w : List Char} {c : Char}
    (h : c ∈ zipInterleave b w) : c ∈ b ∨ c ∈ w := by
  unfold zipInterleave at h
  obtain ⟨p, hp, hc⟩ := foldr_interleave_mem _ c h
  have hmem := List.of_mem_zip hp
  rcases hc with rfl | rfl
  · exact Or.inl hmem.1
  · exact Or.inr hmem.2

theorem specBlock_chars {g : List Char} :
    ∀ c ∈ specBlock g, c = '1' ∨ c = '2' := by
  intro c hc
  unfold specBlock at hc
  rcases mem_zipInterleave hc with h | h
  · exact weights_getD_chars _ c h
  · exact weights_getD_chars _ c h

/-- C10: For every all-digit input, the encoder succeeds (both
`DIGIT_WEIGHTS` lookups stay inside the 10-entry table, so no JS undefined
access occurs) and every character of the output is '1' or '2' — the
renderer's expected alphabet. -/
theorem encode_output_alphabet :
    ∀ s : List Char, (∀ c ∈ s, c.isDigit = true) →
      ∃ out, encode s = some out ∧ ∀ c ∈ out, c = '1' ∨ c = '2' := by
  intro s hd
  refine ⟨_, encode_eq_spec hd, ?_⟩
  intro c hc
  simp only [List.mem_append] at hc
  rcases hc with (hc | hc) | hc
  · revert hc
    revert c
    decide
  · rw [List.mem_flatten] at hc
    obtain ⟨blk, hblk, hcblk⟩ := hc
    rw [List.mem_map] at hblk
    obtain ⟨g, -, rfl⟩ := hblk
    exact specBlock_chars c hcblk
  · revert hc
    revert c
    decide

theorem encode_output_alphabet_witness :
    ∃ out, encode "05".toList = some out ∧ ∀ c ∈ out, c = '1' ∨ c = '2' :=
  encode_output_alphabet "05".toList (by decide)

/-! ## Lemmas about the SVG renderer -/

theorem renderLoop_length (w : ℚ) : ∀ (l : List Nat) (pos : ℚ) (k : Nat),
    (renderLoop w l pos k).length = l.length
  | [], _, _ => rfl
  | s :: rest, pos, k => by
      simp [renderLoop, renderLoop_length w rest]

theorem renderLoop_map_width (w : ℚ) : ∀ (l : List Nat) (pos : ℚ) (k : Nat),
    (renderLoop w l pos k).map SVGRect.width = l.map (fun s : Nat => w * (s : ℚ))
  | [], _, _ => rfl
  | s :: rest, pos, k => by
      simp [renderLoop, renderLoop_map_width w rest]

theorem renderLoop_get? (w : ℚ) : ∀ (l : List Nat) (pos : ℚ) (k i : Nat) (v : Nat),
    l.get? i = some v →
    (renderLoop w l pos k).get? i = some
      { width := w * (v : ℚ), height := DEFAULT_BARCODE_HEIGHT,
        x := pos + w * ((l.take i).map (fun s : Nat => (s : ℚ))).sum, y := 0,
        fill := SVG.color (k + i) }
  | [], pos, k, i, v => by simp
  | s :: rest, pos, k, 0, v => by
      intro h
      rw [List.get?_cons_zero] at h
      injection h with h
      subst h
      simp [renderLoop]
  | s :: rest, pos, k, i + 1, v => by
      intro h
      rw [List.get?_cons_succ] at h
      have ih := renderLoop_get? w rest (pos + w * (s : ℚ)) (k + 1) i v h
      show (renderLoop w rest (pos + w * (s : ℚ)) (k + 1)).get? i = _
      rw [ih]
      have hx : pos + w * (s : ℚ) + w * ((rest.take i).map (fun t : Nat => (t : ℚ))).sum =
          pos + w * (((s :: rest).take (i + 1)).map (fun t : Nat => (t : ℚ))).sum := by
        simp only [List.take_succ_cons, List.map_cons, List.sum_cons]
        ring
      have hf : SVG.color (k + 1 + i) = SVG.color (k + (i + 1)) := by
        congr 1
        omega
      rw [hx, hf]

theorem foldl_add_eq_sum : ∀ (l : List Nat) (acc : Nat),
    l.foldl (fun a b => a + b) acc = acc + l.sum
  | [], acc => by simp
  | s :: rest, acc => by
      simp only [List.foldl, List.sum_cons, foldl_add_eq_sum rest]
      omega

theorem sum_map_wmul (w : ℚ) : ∀ l : List Nat,
    ((l.map (fun s : Nat => w * (s : ℚ))).sum) = w * ((l.map (fun s : Nat => (s : ℚ))).sum)
  | [] => by simp
  | s :: rest => by
      simp only [List.map_cons, List.sum_cons, sum_map_wmul w rest]
      ring

theorem viewBoxWidth_eq (sv : SVG) :
    sv.viewBoxWidth = sv.stripeWidth * ((sv.stripes.map (fun s : Nat => (s : ℚ))).sum) := by
  unfold SVG.viewBoxWidth
  rw [foldl_add_eq_sum]
  simp only [Nat.zero_add]
  rw [Nat.cast_list_sum]
  exact mul_comm _ _

/-- C5: Rendering a '1'/'2' bar pattern with positive unit width produces
one rectangle per character, with width `unit * value`, height 100, y 0,
x the sum of the widths of the previous rectangles, fill black at even and
white at odd indices; the root element carries `width="100%"`,
`height="100%"` and viewBox `0 0 W 100` with `W` the sum of all rectangle
widths; for pattern "12" with unit 4 this is two rectangles (4 at x 0
black, 8 at x 4 white) and viewBox width 12. -/
theorem svg_render_rectangles :
    (∀ (pattern : List Char) (w : ℚ), (∀ c ∈ pattern, c = '1' ∨ c = '2') → 0 < w →
      ((SVG.mkFromPattern pattern w).render).rects.length = pattern.length ∧
      ((SVG.mkFromPattern pattern w).render).widthAttr = "100%".toList ∧
      ((SVG.mkFromPattern pattern w).render).heightAttr = "100%".toList ∧
      ((SVG.mkFromPattern pattern w).render).viewBox =
        (0, 0, (((SVG.mkFromPattern pattern w).render).rects.map SVGRect.width).sum, 100) ∧
      (∀ i c, pattern.get? i = some c →
        ((SVG.mkFromPattern pattern w).render).rects.get? i = some
          { width := w * (digitVal c : ℚ), height := 100,
            x := ((((SVG.mkFromPattern pattern w).render).rects.take i).map
              SVGRect.width).sum,
            y := 0, fill := if i % 2 = 0 then BLACK else WHITE })) ∧
    (SVG.mkFromPattern "12".toList 4).render =
      { rects := [{ width := 4, height := 100, x := 0, y := 0, fill := BLACK },
                  { width := 8, height := 100, x := 4, y := 0, fill := WHITE }],
        widthAttr := "100%".toList, heightAttr := "100%".toList,
        viewBox := (0, 0, 12, 100) } := by
  constructor
  · intro pattern w hpat hw
    have hrects : ((SVG.mkFromPattern pattern w).render).rects =
        renderLoop w (pattern.map digitVal) 0 0 := rfl
    refine ⟨?_, rfl, rfl, ?_, ?_⟩
    · rw [hrects, renderLoop_length, List.length_map]
    · show (0, 0, (SVG.mkFromPattern pattern w).viewBoxWidth, DEFAULT_BARCODE_HEIGHT) = _
      rw [hrects, renderLoop_map_width, sum_map_wmul, viewBoxWidth_eq]
      rfl
    · intro i c hc
      have hst : (pattern.map digitVal).get? i = some (digitVal c) := by
        rw [List.get?_map, hc]
        rfl
      have hrl := renderLoop_get? w (pattern.map digitVal) 0 0 i (digitVal c) hst
      have hx2 : ((renderLoop w (pattern.map digitVal) 0 0).take i).map SVGRect.width
          = ((pattern.map digitVal).take i).map (fun s : Nat => w * (s : ℚ)) := by
        rw [List.map_take, renderLoop_map_width, ← List.map_take]
      rw [hrects, hrl, hx2, sum_map_wmul]
      simp only [zero_add]
      simp [SVG.color, DEFAULT_BARCODE_HEIGHT]
  · have hl : "12".toList = ['1', '2'] := rfl
    have h1 : digitVal '1' = 1 := by decide
    have h2 : digitVal '2' = 2 := by decide
    rw [hl]
    simp only [SVG.mkFromPattern, List.map_cons, List.map_nil, h1, h2]
    simp only [SVG.render, renderLoop, SVG.viewBoxWidth, SVG.color, List.foldl]
    norm_num [BLACK, WHITE, DEFAULT_BARCODE_HEIGHT]

theorem svg_render_rectangles_witness :
    ((SVG.mkFromPattern "12".toList 4).render).rects.length = "12".toList.length ∧
      ((SVG.mkFromPattern "12".toList 4).render).widthAttr = "100%".toList :=
  ⟨(svg_render_rectangles.1 "12".toList 4 (by decide) (by norm_num)).1,
   (svg_render_rectangles.1 "12".toList 4 (by decide) (by norm_num)).2.1⟩
